import Mathlib

/-!
The nain4 placement builder `place` and the breadth-first `geometry_iterator`.

A shallow embedding of `src/nain4/nain4.hh`.

* `double` is abstracted to an arbitrary commutative ring `R`: arithmetic is exact, and
  `std::cos` / `std::sin` are supplied through a `Trig R` record.
* Pointers are handles: `Ptr α` is a nullable pointer (`none` is `nullptr`); the volumes
  walked by the iterator are valid (non-null) handles of types `PV` and `LV`.
* Mutating member functions that `return *this` become functions returning the new
  builder state.
-/

namespace nain4

/-- A nullable pointer: `none` is `nullptr`. -/
abbrev Ptr (α : Type) := Option α

/-- Modelled from the spec: `std::cos` and `std::sin` on the scalar type standing for
`double` (the C++ standard library is not under src/). -/
structure Trig (R : Type) where
  cos : R → R
  sin : R → R

/-- Modelled from the spec: `G4ThreeVector` / `HepGeom::Point3D<double>` (CLHEP, not under
src/): three coordinates. -/
structure G4ThreeVector (R : Type) where
  x : R
  y : R
  z : R
deriving DecidableEq, Repr

/-- Modelled from the spec: `G4RotationMatrix` (CLHEP `HepRotation`, not under src/): a 3x3
matrix, row-major `rxx rxy rxz / ryx ryy ryz / rzx rzy rzz`. -/
structure G4RotationMatrix (R : Type) where
  rxx : R
  rxy : R
  rxz : R
  ryx : R
  ryy : R
  ryz : R
  rzx : R
  rzy : R
  rzz : R
deriving DecidableEq, Repr

/-- Modelled from the spec: `G4Transform3D` (CLHEP `HepGeom::Transform3D`, not under src/):
the rigid transformation "rotation + translation", stored as the 3x4 matrix
`xx xy xz dx / yx yy yz dy / zx zy zz dz`. -/
structure G4Transform3D (R : Type) where
  xx : R
  xy : R
  xz : R
  dx : R
  yx : R
  yy : R
  yz : R
  dy : R
  zx : R
  zy : R
  zz : R
  dz : R
deriving DecidableEq, Repr

section algebra
variable {R : Type} [CommRing R]

/-- Modelled from the spec: the default-constructed `G4RotationMatrix{}` (CLHEP, not under
src/) is the identity rotation. -/
def G4RotationMatrix.IDENTITY : G4RotationMatrix R :=
  ⟨1, 0, 0, 0, 1, 0, 0, 0, 1⟩

/-- Modelled from the spec: `HepRotation::rotateX(delta)` (CLHEP, not under src/): compose
a rotation by `delta` about the X axis on the left of the current matrix. -/
def G4RotationMatrix.rotateX (t : Trig R) (r : G4RotationMatrix R) (delta : R) :
    G4RotationMatrix R :=
  let c1 := t.cos delta
  let s1 := t.sin delta
  { r with
    ryx := c1 * r.ryx - s1 * r.rzx
    ryy := c1 * r.ryy - s1 * r.rzy
    ryz := c1 * r.ryz - s1 * r.rzz
    rzx := s1 * r.ryx + c1 * r.rzx
    rzy := s1 * r.ryy + c1 * r.rzy
    rzz := s1 * r.ryz + c1 * r.rzz }

/-- Modelled from the spec: `HepRotation::rotateY(delta)` (CLHEP, not under src/): compose
a rotation by `delta` about the Y axis on the left of the current matrix. -/
def G4RotationMatrix.rotateY (t : Trig R) (r : G4RotationMatrix R) (delta : R) :
    G4RotationMatrix R :=
  let c1 := t.cos delta
  let s1 := t.sin delta
  { r with
    rzx := c1 * r.rzx - s1 * r.rxx
    rzy := c1 * r.rzy - s1 * r.rxy
    rzz := c1 * r.rzz - s1 * r.rxz
    rxx := s1 * r.rzx + c1 * r.rxx
    rxy := s1 * r.rzy + c1 * r.rxy
    rxz := s1 * r.rzz + c1 * r.rxz }

/-- Modelled from the spec: `HepRotation::rotateZ(delta)` (CLHEP, not under src/): compose
a rotation by `delta` about the Z axis on the left of the current matrix. -/
def G4RotationMatrix.rotateZ (t : Trig R) (r : G4RotationMatrix R) (delta : R) :
    G4RotationMatrix R :=
  let c1 := t.cos delta
  let s1 := t.sin delta
  { r with
    rxx := c1 * r.rxx - s1 * r.ryx
    rxy := c1 * r.rxy - s1 * r.ryy
    rxz := c1 * r.rxz - s1 * r.ryz
    ryx := s1 * r.rxx + c1 * r.ryx
    ryy := s1 * r.rxy + c1 * r.ryy
    ryz := s1 * r.rxz + c1 * r.ryz }

/-- Modelled from the spec: the rotation matrix applied to a vector (CLHEP, not under
src/). -/
def G4RotationMatrix.apply (r : G4RotationMatrix R) (p : G4ThreeVector R) : G4ThreeVector R :=
  ⟨r.rxx * p.x + r.rxy * p.y + r.rxz * p.z,
   r.ryx * p.x + r.ryy * p.y + r.ryz * p.z,
   r.rzx * p.x + r.rzy * p.y + r.rzz * p.z⟩

/-- Modelled from the spec: vector addition of `G4ThreeVector` (CLHEP, not under src/). -/
def G4ThreeVector.add (p q : G4ThreeVector R) : G4ThreeVector R :=
  ⟨p.x + q.x, p.y + q.y, p.z + q.z⟩

/-- Modelled from the spec: `HepGeom::Transform3D::Identity` (CLHEP, not under src/). -/
def G4Transform3D.Identity : G4Transform3D R :=
  ⟨1, 0, 0, 0, 0, 1, 0, 0, 0, 0, 1, 0⟩

/-- Modelled from the spec: `HepGeom::Rotate3D{r}` (CLHEP, not under src/): the
transformation with rotation part `r` and no translation. -/
def Rotate3D (r : G4RotationMatrix R) : G4Transform3D R :=
  ⟨r.rxx, r.rxy, r.rxz, 0, r.ryx, r.ryy, r.ryz, 0, r.rzx, r.rzy, r.rzz, 0⟩

/-- Modelled from the spec: `HepGeom::Translate3D{x,y,z}` (CLHEP, not under src/): the
transformation with identity rotation part and translation `(x,y,z)`. -/
def Translate3D (x y z : R) : G4Transform3D R :=
  ⟨1, 0, 0, x, 0, 1, 0, y, 0, 0, 1, z⟩

/-- Modelled from the spec: `operator*` of `HepGeom::Transform3D` (CLHEP, not under src/):
the matrix product of two affine transformations, `(a * b) p = a (b p)`. -/
def G4Transform3D.mul (a b : G4Transform3D R) : G4Transform3D R :=
  { xx := a.xx * b.xx + a.xy * b.yx + a.xz * b.zx
    xy := a.xx * b.xy + a.xy * b.yy + a.xz * b.zy
    xz := a.xx * b.xz + a.xy * b.yz + a.xz * b.zz
    dx := a.xx * b.dx + a.xy * b.dy + a.xz * b.dz + a.dx
    yx := a.yx * b.xx + a.yy * b.yx + a.yz * b.zx
    yy := a.yx * b.xy + a.yy * b.yy + a.yz * b.zy
    yz := a.yx * b.xz + a.yy * b.yz + a.yz * b.zz
    dy := a.yx * b.dx + a.yy * b.dy + a.yz * b.dz + a.dy
    zx := a.zx * b.xx + a.zy * b.yx + a.zz * b.zx
    zy := a.zx * b.xy + a.zy * b.yy + a.zz * b.zy
    zz := a.zx * b.xz + a.zy * b.yz + a.zz * b.zz
    dz := a.zx * b.dx + a.zy * b.dy + a.zz * b.dz + a.dz }

instance : Mul (G4Transform3D R) := ⟨G4Transform3D.mul⟩

/-- Modelled from the spec: `operator*(Transform3D, Point3D)` (CLHEP, not under src/): the
transformation applied to a point. -/
def G4Transform3D.apply (a : G4Transform3D R) (p : G4ThreeVector R) : G4ThreeVector R :=
  ⟨a.xx * p.x + a.xy * p.y + a.xz * p.z + a.dx,
   a.yx * p.x + a.yy * p.y + a.yz * p.z + a.dy,
   a.zx * p.x + a.zy * p.y + a.zz * p.z + a.dz⟩

/-- Modelled from the spec: `Transform3D::getTranslation` (CLHEP, not under src/): the
translation component. -/
def G4Transform3D.getTranslation (a : G4Transform3D R) : G4ThreeVector R :=
  ⟨a.dx, a.dy, a.dz⟩

/-- Modelled from the spec: `Transform3D::getRotation` (CLHEP, not under src/): the
rotation component. -/
def G4Transform3D.getRotation (a : G4Transform3D R) : G4RotationMatrix R :=
  ⟨a.xx, a.xy, a.xz, a.yx, a.yy, a.yz, a.zx, a.zy, a.zz⟩

end algebra

/-! ## `class place` (nain4.hh, lines 144-192) -/

/-- The per-instance data members of `place` (nain4.hh, lines 185-190). The static member
`global_check_overlaps_` is not part of an instance; it lives in `Store`. -/
structure place (LV R : Type) where
  child : Option (Ptr LV)
  parent : Option (Ptr LV)
  label : Option String
  copy_number : Option Int
  transformation : G4Transform3D R
  local_check_overlaps_ : Bool
deriving DecidableEq

namespace place
variable {LV PV R : Type} [CommRing R]

/-- The constructor `place(G4LogicalVolume* child)`:
`child(child ? make_optional(child) : nullopt)`, every other member default-initialised. -/
def ctor (child : Ptr LV) : place LV R :=
  { child := match child with
      | some c => some (some c)
      | none => none
    parent := none
    label := none
    copy_number := none
    transformation := G4Transform3D.Identity
    local_check_overlaps_ := false }

/-- The mutator `transform`: `transformation = transform_ * transformation`. -/
def transform (b : place LV R) (transform_ : G4Transform3D R) : place LV R :=
  { b with transformation := transform_ * b.transformation }

/-- The mutator `trans`: `return transform(transform_)`. -/
def trans (b : place LV R) (transform_ : G4Transform3D R) : place LV R :=
  b.transform transform_

/-- The mutator `rotate`: `transformation = HepGeom::Rotate3D{r} * transformation`. -/
def rotate (b : place LV R) (r : G4RotationMatrix R) : place LV R :=
  { b with transformation := Rotate3D r * b.transformation }

/-- The mutator `rotate_x`: `auto rot = G4RotationMatrix{}; rot.rotateX(delta);
return rotate(rot)`. -/
def rotate_x (t : Trig R) (b : place LV R) (delta : R) : place LV R :=
  let rot := G4RotationMatrix.rotateX t G4RotationMatrix.IDENTITY delta
  b.rotate rot

/-- The mutator `rotate_y`. -/
def rotate_y (t : Trig R) (b : place LV R) (delta : R) : place LV R :=
  let rot := G4RotationMatrix.rotateY t G4RotationMatrix.IDENTITY delta
  b.rotate rot

/-- The mutator `rotate_z`. -/
def rotate_z (t : Trig R) (b : place LV R) (delta : R) : place LV R :=
  let rot := G4RotationMatrix.rotateZ t G4RotationMatrix.IDENTITY delta
  b.rotate rot

/-- The alias `rot`: `return rotate(r)`. -/
def rot (b : place LV R) (r : G4RotationMatrix R) : place LV R := b.rotate r

/-- The alias `rot_x`: `return rotate_x(delta)`. -/
def rot_x (t : Trig R) (b : place LV R) (delta : R) : place LV R := b.rotate_x t delta

/-- The alias `rot_y`: `return rotate_y(delta)`. -/
def rot_y (t : Trig R) (b : place LV R) (delta : R) : place LV R := b.rotate_y t delta

/-- The alias `rot_z`: `return rotate_z(delta)`. -/
def rot_z (t : Trig R) (b : place LV R) (delta : R) : place LV R := b.rotate_z t delta

/-- The mutator `at(x, y, z)`:
`transformation = HepGeom::Translate3D{x,y,z} * transformation`. -/
def «at» (b : place LV R) (x y z : R) : place LV R :=
  { b with transformation := Translate3D x y z * b.transformation }

/-- The overload `at(G4ThreeVector p)`: `return at(p.x(), p.y(), p.z())`. -/
def at_v (b : place LV R) (p : G4ThreeVector R) : place LV R := b.at p.x p.y p.z

/-- The mutator `at_x`: `return at(x, 0, 0)`. -/
def at_x (b : place LV R) (x : R) : place LV R := b.at x 0 0

/-- The mutator `at_y`: `return at(0, y, 0)`. -/
def at_y (b : place LV R) (y : R) : place LV R := b.at 0 y 0

/-- The mutator `at_z`: `return at(0, 0, z)`. -/
def at_z (b : place LV R) (z : R) : place LV R := b.at 0 0 z

/-- The mutator `copy_no`: `copy_number = n`. -/
def copy_no (b : place LV R) (n : Int) : place LV R :=
  { b with copy_number := some n }

/-- The mutator `in(G4LogicalVolume* parent_)`: `parent = parent_`. -/
def «in» (b : place LV R) (parent_ : Ptr LV) : place LV R :=
  { b with parent := some parent_ }

/-- The overload `in(G4PVPlacement* parent_)`: `return in(parent_->GetLogicalVolume())`.
`GetLogicalVolume` is the accessor of the placement that is passed. -/
def in_pv (GetLogicalVolume : PV → Ptr LV) (b : place LV R) (parent_ : PV) : place LV R :=
  b.in (GetLogicalVolume parent_)

/-- Modelled from the spec: `place::get_logical` is declared in nain4.hh and defined
outside src/; it "returns the child LogicalVolume". `none` stands for the failure on a
builder without a child. -/
def get_logical (b : place LV R) : Option (Ptr LV) := b.child

/-- The overload `in(n4::place& parent_)`: `return in(parent_.get_logical())`; nothing is
assigned when `get_logical` fails. -/
def in_place (b : place LV R) (parent_ : place LV R) : Option (place LV R) :=
  match parent_.get_logical with
  | some l => some (b.in l)
  | none => none

/-- The mutator `name`: `label = label_`. -/
def name (b : place LV R) (label_ : String) : place LV R :=
  { b with label := some label_ }

/-- The mutator `check_overlaps`: `local_check_overlaps_ = true`. -/
def check_overlaps (b : place LV R) : place LV R :=
  { b with local_check_overlaps_ := true }

/-- The member `clone() const`: `return *this`, through the defaulted copy constructor. -/
def clone (b : place LV R) : place LV R := b

end place

/-! ### Chains of mutators, and builder objects in a store -/

/-- One call of a chainable mutator of `place`, with its arguments. The two `in` overloads
that first read their argument (`in_pv`, `in_place`) pass the logical volume they obtain
to `in`, so a chain records them as `in_`. -/
inductive Mutator (LV R : Type) where
  | trans (transform_ : G4Transform3D R)
  | transform (transform_ : G4Transform3D R)
  | rotate (r : G4RotationMatrix R)
  | rotate_x (delta : R)
  | rotate_y (delta : R)
  | rotate_z (delta : R)
  | rot (r : G4RotationMatrix R)
  | rot_x (delta : R)
  | rot_y (delta : R)
  | rot_z (delta : R)
  | at_ (x y z : R)
  | at_v (p : G4ThreeVector R)
  | at_x (x : R)
  | at_y (y : R)
  | at_z (z : R)
  | copy_no (n : Int)
  | in_ (parent_ : Ptr LV)
  | name (label_ : String)
  | check_overlaps

namespace Mutator
variable {LV R : Type} [CommRing R]

/-- The call dispatched to the member function it names. -/
def call (t : Trig R) (b : place LV R) : Mutator LV R → place LV R
  | trans T => b.trans T
  | transform T => b.transform T
  | rotate r => b.rotate r
  | rotate_x d => b.rotate_x t d
  | rotate_y d => b.rotate_y t d
  | rotate_z d => b.rotate_z t d
  | rot r => b.rot r
  | rot_x d => b.rot_x t d
  | rot_y d => b.rot_y t d
  | rot_z d => b.rot_z t d
  | at_ x y z => b.at x y z
  | at_v p => b.at_v p
  | at_x x => b.at_x x
  | at_y y => b.at_y y
  | at_z z => b.at_z z
  | copy_no n => b.copy_no n
  | in_ l => b.in l
  | name s => b.name s
  | check_overlaps => b.check_overlaps

/-- Whether the call is one of the transform mutators (nain4.hh, lines 149-166). -/
def isTransform : Mutator LV R → Bool
  | copy_no _ => false
  | in_ _ => false
  | name _ => false
  | check_overlaps => false
  | _ => true

/-- The value the call gives to `copy_number`, if it is a `copy_no`. -/
def copyArg : Mutator LV R → Option Int
  | copy_no n => some n
  | _ => none

/-- The value the call gives to `parent`, if it is an `in`. -/
def parentArg : Mutator LV R → Option (Ptr LV)
  | in_ l => some l
  | _ => none

/-- The value the call gives to `label`, if it is a `name`. -/
def labelArg : Mutator LV R → Option String
  | name s => some s
  | _ => none

/-- Whether the call is `check_overlaps`. -/
def isCheck : Mutator LV R → Bool
  | check_overlaps => true
  | _ => false

end Mutator

/-- A chain `b.m1(..).m2(..)...`: the calls applied in order. -/
def place.chain {LV R : Type} [CommRing R] (t : Trig R) (b : place LV R)
    (ms : List (Mutator LV R)) : place LV R :=
  ms.foldl (Mutator.call t) b

/-- The last value in a list of optional assignments, if any assignment occurs. -/
def lastSome {α : Type} : List (Option α) → Option α
  | [] => none
  | o :: os => match lastSome os with
    | some a => some a
    | none => o

/-- The builder objects alive at some moment, addressed by position, together with the
static member `place::global_check_overlaps_` they share. -/
structure Store (LV R : Type) where
  objs : List (place LV R)
  global_check_overlaps_ : Bool

namespace Store
variable {LV R : Type} [CommRing R]

/-- The static member function `check_overlaps_switch_on`. -/
def check_overlaps_switch_on (s : Store LV R) : Store LV R :=
  { s with global_check_overlaps_ := true }

/-- The static member function `check_overlaps_switch_off`. -/
def check_overlaps_switch_off (s : Store LV R) : Store LV R :=
  { s with global_check_overlaps_ := false }

/-- The statement `auto c = b.clone();`: a new object holding the value `clone` returns is
created; its address is returned with the new store. `none` when `b` is not an object. -/
def clone (s : Store LV R) (b : Nat) : Option (Nat × Store LV R) :=
  match s.objs[b]? with
  | some pb => some (s.objs.length, { s with objs := s.objs ++ [pb.clone] })
  | none => none

/-- A mutator called on the object at address `a`: that object is updated in place. -/
def mutate (t : Trig R) (s : Store LV R) (a : Nat) (m : Mutator LV R) : Store LV R :=
  match s.objs[a]? with
  | some pa => { s with objs := s.objs.set a (m.call t pa) }
  | none => s

/-- A sequence of mutator calls on the object at address `a`. -/
def mutateAll (t : Trig R) (s : Store LV R) (a : Nat) (ms : List (Mutator LV R)) :
    Store LV R :=
  ms.foldl (fun st m => st.mutate t a m) s

end Store

/-! ## `class geometry_iterator` (nain4.hh, lines 293-331) -/

/-- The part of the Geant4 volume tree the iterator reads: `G4VPhysicalVolume::GetLogicalVolume`,
`G4LogicalVolume::GetNoDaughters` and `G4LogicalVolume::GetDaughter`. -/
structure Geometry (PV LV : Type) where
  GetLogicalVolume : PV → LV
  GetNoDaughters : LV → Nat
  GetDaughter : LV → Nat → PV

end nain4

/-- The data member of `geometry_iterator`: `std::queue<G4VPhysicalVolume*> q`, front
first. -/
structure geometry_iterator (PV : Type) where
  q : List PV
deriving DecidableEq

namespace geometry_iterator
open nain4
variable {PV LV : Type}

/-- The loop of `queue_daughters` from index `d` on, with `n` iterations left:
`this->q.push(logical.GetDaughter(d)); ++d`. -/
def queue_daughters_loop (g : Geometry PV LV) (logical : LV) :
    Nat → Nat → geometry_iterator PV → geometry_iterator PV
  | 0, _, it => it
  | n + 1, d, it => queue_daughters_loop g logical n (d + 1) ⟨it.q ++ [g.GetDaughter logical d]⟩

/-- The member `queue_daughters`:
`for (size_t d = 0; d < logical.GetNoDaughters(); ++d) q.push(logical.GetDaughter(d))`. -/
def queue_daughters (g : Geometry PV LV) (it : geometry_iterator PV) (logical : LV) :
    geometry_iterator PV :=
  queue_daughters_loop g logical (g.GetNoDaughters logical) 0 it

/-- The default constructor `geometry_iterator() {}`: an empty queue. -/
def ctor : geometry_iterator PV := ⟨[]⟩

/-- The constructor `geometry_iterator(G4VPhysicalVolume* v)`: `this->q.push(v)`. -/
def ctor_pv (v : PV) : geometry_iterator PV := ⟨([] : List PV) ++ [v]⟩

/-- The constructor `geometry_iterator(G4LogicalVolume* v)`: `queue_daughters(*v)`. -/
def ctor_lv (g : Geometry PV LV) (v : LV) : geometry_iterator PV :=
  queue_daughters g ⟨[]⟩ v

/-- The pre-increment `operator++()`: if the queue is not empty, take the front, pop it
and queue the daughters of its logical volume. -/
def preincrement (g : Geometry PV LV) (it : geometry_iterator PV) : geometry_iterator PV :=
  match it.q with
  | [] => it
  | current :: rest => queue_daughters g ⟨rest⟩ (g.GetLogicalVolume current)

/-- The post-increment `operator++(int)`: `auto tmp = *this; ++(*this); return tmp;`.
The first component is the returned copy, the second the iterator afterwards. -/
def postincrement (g : Geometry PV LV) (it : geometry_iterator PV) :
    geometry_iterator PV × geometry_iterator PV :=
  let tmp := it
  (tmp, preincrement g it)

/-- The dereference `operator*() const`: `q.front()`; `none` on an empty queue, where the
C++ call has no defined result. -/
def deref (it : geometry_iterator PV) : Option PV := it.q.head?

/-- The friend `operator==`: `a.q == b.q`. -/
def eq [DecidableEq PV] (a b : geometry_iterator PV) : Bool := decide (a.q = b.q)

/-- The friend `operator!=`: `a.q != b.q`. -/
def ne [DecidableEq PV] (a b : geometry_iterator PV) : Bool := decide (a.q ≠ b.q)

/-- The sequence an input-iterator consumer obtains: while the iterator differs
(`operator!=`) from the default-constructed end iterator, dereference it and advance it
(`for (; it != end; ++it) out.push_back(*it)`). At most `fuel` advances are made; `none`
when the end has not been reached by then. -/
def traverse [DecidableEq PV] (g : Geometry PV LV) :
    Nat → geometry_iterator PV → Option (List PV)
  | 0, it => if ne it ctor then none else some []
  | fuel + 1, it =>
    if ne it ctor then
      match deref it with
      | some v => (traverse g fuel (preincrement g it)).map (v :: ·)
      | none => none
    else some []

/-- The iterator after `k` pre-increments. -/
def advances (g : Geometry PV LV) (k : Nat) (it : geometry_iterator PV) :
    geometry_iterator PV :=
  (preincrement g)^[k] it

end geometry_iterator

namespace nain4
variable {PV LV : Type}

/-! ### The traversal order and the placement paths, as the specification words them -/

/-- The daughters of a logical volume in daughter-index order. -/
def daughters (g : Geometry PV LV) (l : LV) : List PV :=
  (List.range (g.GetNoDaughters l)).map (g.GetDaughter l)

/-- The placements directly below a placement: the daughters of its logical volume. -/
def children (g : Geometry PV LV) (p : PV) : List PV :=
  daughters g (g.GetLogicalVolume p)

/-- The daughter relation on logical volumes: `l'` is the logical volume of a daughter
of `l`. -/
def daughterRel (g : Geometry PV LV) (l' l : LV) : Prop :=
  ∃ d, d < g.GetNoDaughters l ∧ g.GetLogicalVolume (g.GetDaughter l d) = l'

/-- The placements `k` levels below the placements `ps` (level 0 is `ps` itself): each
level lists, parent by parent in the order of the level above, the daughters of that
parent in daughter-index order. -/
def level (g : Geometry PV LV) : Nat → List PV → List PV
  | 0, ps => ps
  | k + 1, ps => level g k (ps.flatMap (children g))

/-- The level-order sequence of the first `n` levels, starting with `ps`. -/
def levelOrder (g : Geometry PV LV) : Nat → List PV → List PV
  | 0, _ => []
  | n + 1, ps => ps ++ levelOrder g n (ps.flatMap (children g))

/-- A placement path: the placement it ends at, and the placements above it (nearest
first) back to the root it starts from. -/
structure Path (PV : Type) where
  last : PV
  above : List PV
deriving DecidableEq

/-- The paths that extend `p` by one placement, in daughter-index order. -/
def Path.extend (g : Geometry PV LV) (p : Path PV) : List (Path PV) :=
  (children g p.last).map (fun d => ⟨d, p.last :: p.above⟩)

/-- The placement paths that start at one of `roots` and go down `k` further placements. -/
def pathsOfLen (g : Geometry PV LV) : Nat → List PV → List (Path PV)
  | 0, roots => roots.map (fun r => ⟨r, []⟩)
  | k + 1, roots => (pathsOfLen g k roots).flatMap (Path.extend g)

/-- The placement paths that start at one of `roots` and go down fewer than `n`
placements. -/
def placementPaths (g : Geometry PV LV) (n : Nat) (roots : List PV) : List (Path PV) :=
  (List.range n).flatMap (fun k => pathsOfLen g k roots)

/-! ### Example geometries -/

/-- The logical volume `L` (number 0) has the daughters `p1`, `p2` (placements 1, 2, of the
logical volumes 1, 2); `p1`'s volume has the daughter `p3` (placement 3, of the logical
volume 3). -/
def exampleTree : Geometry Nat Nat where
  GetLogicalVolume p := p
  GetNoDaughters l := if l = 0 then 2 else if l = 1 then 1 else 0
  GetDaughter l d := if l = 0 then d + 1 else 3

/-- Instancing: the world volume 0 holds placements 1 and 2 of one logical volume 1, whose
single daughter is placement 3 of the logical volume 2; placement 3 is reached through two
paths. -/
def exampleInstanced : Geometry Nat Nat where
  GetLogicalVolume p := if p = 3 then 2 else if p = 0 then 0 else 1
  GetNoDaughters l := if l = 0 then 2 else if l = 1 then 1 else 0
  GetDaughter l d := if l = 0 then d + 1 else 3

end nain4

namespace nain4

/-- The traversal started at the iterator `it`, whose initial queue holds `roots`, counts
placement paths: beyond some length no placement path from `roots` exists; the consumer
loop produces a sequence `out`; the iterator compares equal to the default-constructed end
iterator after `out.length` advances and not before; `out.length` is the number of
placement paths from `roots`; and every placement occurs in `out` as many times as there
are placement paths ending at it. -/
def TraversalCountsPaths {PV LV : Type} [DecidableEq PV] (g : Geometry PV LV)
    (it : geometry_iterator PV) (roots : List PV) : Prop :=
  ∃ (N : Nat) (out : List PV),
    (∀ k, N ≤ k → pathsOfLen g k roots = []) ∧
    (∀ fuel, out.length ≤ fuel → geometry_iterator.traverse g fuel it = some out) ∧
    geometry_iterator.eq (geometry_iterator.advances g out.length it)
      geometry_iterator.ctor = true ∧
    (∀ k, k < out.length →
      geometry_iterator.eq (geometry_iterator.advances g k it)
        geometry_iterator.ctor = false) ∧
    out.length = (placementPaths g N roots).length ∧
    ∀ p : PV, out.count p
      = ((placementPaths g N roots).filter (fun π => decide (π.last = p))).length

end nain4

/-! ## Theorems: the placement builder -/

namespace nain4
section placeTheorems
variable {LV PV R : Type} [CommRing R]

theorem G4Transform3D.mul_def (a b : G4Transform3D R) : a * b = G4Transform3D.mul a b := rfl

/-- The identity transformation is a right unit of the product. -/
theorem G4Transform3D.mul_Identity (a : G4Transform3D R) :
    a * G4Transform3D.Identity = a := by
  cases a
  simp [G4Transform3D.mul_def, G4Transform3D.mul, G4Transform3D.Identity]

/-- The product of transformations acts on points as the composition, right factor first. -/
theorem G4Transform3D.apply_mul (a b : G4Transform3D R) (p : G4ThreeVector R) :
    (a * b).apply p = a.apply (b.apply p) := by
  simp only [G4Transform3D.mul_def, G4Transform3D.mul, G4Transform3D.apply,
    G4ThreeVector.mk.injEq]
  refine ⟨?_, ?_, ?_⟩ <;> ring

/-- A pure rotation transformation acts on points as its matrix. -/
theorem Rotate3D_apply (r : G4RotationMatrix R) (p : G4ThreeVector R) :
    (Rotate3D r).apply p = r.apply p := by
  simp [Rotate3D, G4Transform3D.apply, G4RotationMatrix.apply]

/-- A pure translation acts on points by adding its vector. -/
theorem Translate3D_apply (x y z : R) (p : G4ThreeVector R) :
    (Translate3D x y z).apply p = p.add ⟨x, y, z⟩ := by
  simp [Translate3D, G4Transform3D.apply, G4ThreeVector.add]

/-- The rotation `rotate_z` builds, on a default-constructed matrix. -/
theorem rotateZ_IDENTITY (t : Trig R) (delta : R) :
    G4RotationMatrix.rotateZ t G4RotationMatrix.IDENTITY delta
      = ⟨t.cos delta, -t.sin delta, 0, t.sin delta, t.cos delta, 0, 0, 0, 1⟩ := by
  simp [G4RotationMatrix.rotateZ, G4RotationMatrix.IDENTITY]

/-- The accumulated transformation of `place(v).at(x,y,z).rotate_z(delta)`. -/
theorem at_rotate_z_transformation (t : Trig R) (child : Ptr LV) (x y z delta : R) :
    (((place.ctor child : place LV R).at x y z).rotate_z t delta).transformation
      = Rotate3D (G4RotationMatrix.rotateZ t G4RotationMatrix.IDENTITY delta)
          * Translate3D x y z := by
  simp [place.rotate_z, place.rotate, place.at, place.ctor, G4Transform3D.mul_Identity]

/-- The translation by `(1,0,0)` and the quarter turn about Z, over the integers. -/
theorem translate_quarter_turn_not_commute :
    Translate3D (1 : ℤ) 0 0 * Rotate3D ⟨0, -1, 0, 1, 0, 0, 0, 0, 1⟩
      ≠ Rotate3D ⟨0, -1, 0, 1, 0, 0, 0, 0, 1⟩ * Translate3D (1 : ℤ) 0 0 := by
  decide

/-- C1: every transform mutator of the place builder pre-multiplies. For every builder
state with accumulated transformation `M`: `transform(T)` and its alias `trans(T)` leave
`T * M`; `rotate(r)` (alias `rot`) leaves `Rotate3D r * M`, and `rotate_x/y/z(delta)` (aliases
`rot_x/y/z`) do so with the single-axis rotation they build; `at(x,y,z)`, `at(vector)` and
`at_x/y/z` leave `Translate3D * M`. The new factor is on the left: each of `transform`,
`rotate`, `at` differs from the right-multiplying operation `M * T` on some input. -/
theorem C1_transform_mutators_premultiply :
    (∀ (LV R : Type) [CommRing R] (t : Trig R) (b : place LV R) (T : G4Transform3D R)
        (r : G4RotationMatrix R) (p : G4ThreeVector R) (x y z delta : R),
      (b.transform T).transformation = T * b.transformation ∧
      (b.trans T).transformation = T * b.transformation ∧
      (b.rotate r).transformation = Rotate3D r * b.transformation ∧
      (b.rot r).transformation = Rotate3D r * b.transformation ∧
      (b.rotate_x t delta).transformation
        = Rotate3D (G4RotationMatrix.rotateX t G4RotationMatrix.IDENTITY delta)
            * b.transformation ∧
      (b.rotate_y t delta).transformation
        = Rotate3D (G4RotationMatrix.rotateY t G4RotationMatrix.IDENTITY delta)
            * b.transformation ∧
      (b.rotate_z t delta).transformation
        = Rotate3D (G4RotationMatrix.rotateZ t G4RotationMatrix.IDENTITY delta)
            * b.transformation ∧
      (b.rot_x t delta).transformation = (b.rotate_x t delta).transformation ∧
      (b.rot_y t delta).transformation = (b.rotate_y t delta).transformation ∧
      (b.rot_z t delta).transformation = (b.rotate_z t delta).transformation ∧
      (b.at x y z).transformation = Translate3D x y z * b.transformation ∧
      (b.at_v p).transformation = Translate3D p.x p.y p.z * b.transformation ∧
      (b.at_x x).transformation = Translate3D x 0 0 * b.transformation ∧
      (b.at_y y).transformation = Translate3D 0 y 0 * b.transformation ∧
      (b.at_z z).transformation = Translate3D 0 0 z * b.transformation) ∧
    (∃ (b : place Unit ℤ) (T : G4Transform3D ℤ),
      (b.transform T).transformation ≠ b.transformation * T) ∧
    (∃ (b : place Unit ℤ) (r : G4RotationMatrix ℤ),
      (b.rotate r).transformation ≠ b.transformation * Rotate3D r) ∧
    (∃ (b : place Unit ℤ) (x y z : ℤ),
      (b.at x y z).transformation ≠ b.transformation * Translate3D x y z) := by
  refine ⟨?_, ?_, ?_, ?_⟩
  · intro LV R _ t b T r p x y z delta
    exact ⟨rfl, rfl, rfl, rfl, rfl, rfl, rfl, rfl, rfl, rfl, rfl, rfl, rfl, rfl, rfl⟩
  · refine ⟨(place.ctor none).rotate ⟨0, -1, 0, 1, 0, 0, 0, 0, 1⟩, Translate3D 1 0 0, ?_⟩
    simp only [place.transform, place.rotate, place.ctor, G4Transform3D.mul_Identity]
    exact translate_quarter_turn_not_commute
  · refine ⟨(place.ctor none).at 1 0 0, ⟨0, -1, 0, 1, 0, 0, 0, 0, 1⟩, ?_⟩
    simp only [place.at, place.rotate, place.ctor, G4Transform3D.mul_Identity]
    exact fun h => translate_quarter_turn_not_commute h.symm
  · refine ⟨(place.ctor none).rotate ⟨0, -1, 0, 1, 0, 0, 0, 0, 1⟩, 1, 0, 0, ?_⟩
    simp only [place.at, place.rotate, place.ctor, G4Transform3D.mul_Identity]
    exact translate_quarter_turn_not_commute

/-- C2: composition order. For a freshly constructed builder, every translation `(x,y,z)`
and every angle `θ`, the accumulated transformation after `at(x,y,z).rotate_z(θ)` is the
product `rotate_z(θ) * translate(x,y,z)`: it maps every point `p` to `Rz(θ)(p + (x,y,z))`,
whereas the reverse-order product (what `rotate_z(θ).at(x,y,z)` accumulates) maps `p` to
`Rz(θ)(p) + (x,y,z)`. At a quarter turn (`cos θ = 0`, `sin θ = 1`),
`place(v).at(1,0,0).rotate_z(θ)` maps the local point `(1,0,0)` to `(0,2,0)`, and the
reverse order maps it to `(1,1,0)`. -/
theorem C2_at_then_rotate_z_order (t : Trig R) (child : Ptr LV) (x y z θ : R) :
    (((place.ctor child : place LV R).at x y z).rotate_z t θ).transformation
        = Rotate3D (G4RotationMatrix.rotateZ t G4RotationMatrix.IDENTITY θ)
            * Translate3D x y z ∧
    (∀ p : G4ThreeVector R,
      (((place.ctor child : place LV R).at x y z).rotate_z t θ).transformation.apply p
        = (G4RotationMatrix.rotateZ t G4RotationMatrix.IDENTITY θ).apply (p.add ⟨x, y, z⟩)) ∧
    (∀ p : G4ThreeVector R,
      (((place.ctor child : place LV R).rotate_z t θ).at x y z).transformation.apply p
        = ((G4RotationMatrix.rotateZ t G4RotationMatrix.IDENTITY θ).apply p).add ⟨x, y, z⟩) ∧
    (t.cos θ = 0 → t.sin θ = 1 →
      (((place.ctor child : place LV R).at 1 0 0).rotate_z t θ).transformation.apply ⟨1, 0, 0⟩
          = ⟨0, 2, 0⟩ ∧
      (((place.ctor child : place LV R).rotate_z t θ).at 1 0 0).transformation.apply ⟨1, 0, 0⟩
          = ⟨1, 1, 0⟩) := by
  refine ⟨at_rotate_z_transformation t child x y z θ, ?_, ?_, ?_⟩
  · intro p
    rw [at_rotate_z_transformation, G4Transform3D.apply_mul, Rotate3D_apply,
      Translate3D_apply]
  · intro p
    simp only [place.rotate_z, place.rotate, place.at, place.ctor,
      G4Transform3D.mul_Identity]
    rw [G4Transform3D.apply_mul, Rotate3D_apply, Translate3D_apply]
  · intro hc hs
    constructor
    · rw [at_rotate_z_transformation, G4Transform3D.apply_mul, Rotate3D_apply,
        Translate3D_apply, rotateZ_IDENTITY, hc, hs]
      simp only [G4RotationMatrix.apply, G4ThreeVector.add, G4ThreeVector.mk.injEq]
      refine ⟨?_, ?_, ?_⟩ <;> ring
    · simp only [place.rotate_z, place.rotate, place.at, place.ctor,
        G4Transform3D.mul_Identity]
      rw [G4Transform3D.apply_mul, Rotate3D_apply, Translate3D_apply, rotateZ_IDENTITY,
        hc, hs]
      simp only [G4RotationMatrix.apply, G4ThreeVector.add, G4ThreeVector.mk.injEq]
      refine ⟨?_, ?_, ?_⟩ <;> ring

/-- Witness of C2 over the real numbers, at the angle `π / 2`. -/
theorem C2_at_then_rotate_z_order_witness :
    Real.cos (Real.pi / 2) = 0 ∧ Real.sin (Real.pi / 2) = 1 ∧
    (((place.ctor (some ()) : place Unit ℝ).at 1 0 0).rotate_z ⟨Real.cos, Real.sin⟩
        (Real.pi / 2)).transformation.apply ⟨1, 0, 0⟩ = ⟨0, 2, 0⟩ ∧
    (((place.ctor (some ()) : place Unit ℝ).rotate_z ⟨Real.cos, Real.sin⟩
        (Real.pi / 2)).at 1 0 0).transformation.apply ⟨1, 0, 0⟩ = ⟨1, 1, 0⟩ :=
  ⟨Real.cos_pi_div_two, Real.sin_pi_div_two,
    (C2_at_then_rotate_z_order ⟨Real.cos, Real.sin⟩ (some ()) 1 0 0 (Real.pi / 2)).2.2.2
      Real.cos_pi_div_two Real.sin_pi_div_two⟩

/-- C3, as amended: for the builder `place(v).at(1,0,0).rotate_z(θ)` at a quarter turn
(`cos θ = 0`, `sin θ = 1`), the accumulated transformation maps the origin `(0,0,0)` to
`(0,1,0)`. -/
theorem C3_origin_image (t : Trig R) (child : Ptr LV) (θ : R)
    (hc : t.cos θ = 0) (hs : t.sin θ = 1) :
    (((place.ctor child : place LV R).at 1 0 0).rotate_z t θ).transformation.apply ⟨0, 0, 0⟩
      = ⟨0, 1, 0⟩ := by
  rw [at_rotate_z_transformation, G4Transform3D.apply_mul, Rotate3D_apply,
    Translate3D_apply, rotateZ_IDENTITY, hc, hs]
  simp only [G4RotationMatrix.apply, G4ThreeVector.add, G4ThreeVector.mk.injEq]
  refine ⟨?_, ?_, ?_⟩ <;> ring

/-- Witness of C3 (amended) over the real numbers, at the angle `π / 2`. -/
theorem C3_origin_image_witness :
    Real.cos (Real.pi / 2) = 0 ∧ Real.sin (Real.pi / 2) = 1 ∧
    (((place.ctor (some ()) : place Unit ℝ).at 1 0 0).rotate_z ⟨Real.cos, Real.sin⟩
        (Real.pi / 2)).transformation.apply ⟨0, 0, 0⟩ = ⟨0, 1, 0⟩ :=
  ⟨Real.cos_pi_div_two, Real.sin_pi_div_two,
    C3_origin_image ⟨Real.cos, Real.sin⟩ (some ()) (Real.pi / 2)
      Real.cos_pi_div_two Real.sin_pi_div_two⟩

/-- C3 as stated fails: over the real numbers, `place(v).at(1,0,0).rotate_z(π/2)` does not
map the origin to the origin. -/
theorem C3_origin_not_fixed :
    (((place.ctor (some ()) : place Unit ℝ).at 1 0 0).rotate_z ⟨Real.cos, Real.sin⟩
        (Real.pi / 2)).transformation.apply ⟨0, 0, 0⟩ ≠ ⟨0, 0, 0⟩ := by
  rw [at_rotate_z_transformation, G4Transform3D.apply_mul, Rotate3D_apply,
    Translate3D_apply, rotateZ_IDENTITY]
  simp [G4RotationMatrix.apply, G4ThreeVector.add]

/-- C4: for every child volume and every `x, y, z`, a freshly constructed builder has the
identity as accumulated transformation, and after only `at(x,y,z)` the translation
component is exactly `(x,y,z)` and the rotation component is the identity; `at_x(x)`,
`at_y(y)`, `at_z(z)` are `at(x,0,0)`, `at(0,y,0)`, `at(0,0,z)`. -/
theorem C4_at_only (child : Ptr LV) (x y z : R) :
    (place.ctor child : place LV R).transformation = G4Transform3D.Identity ∧
    ((place.ctor child : place LV R).at x y z).transformation.getTranslation = ⟨x, y, z⟩ ∧
    ((place.ctor child : place LV R).at x y z).transformation.getRotation
      = G4RotationMatrix.IDENTITY ∧
    ((place.ctor child : place LV R).at x y z).transformation = Translate3D x y z ∧
    (place.ctor child : place LV R).at_x x = (place.ctor child).at x 0 0 ∧
    (place.ctor child : place LV R).at_y y = (place.ctor child).at 0 y 0 ∧
    (place.ctor child : place LV R).at_z z = (place.ctor child).at 0 0 z ∧
    ((place.ctor child : place LV R).at_x x).transformation.getTranslation = ⟨x, 0, 0⟩ ∧
    ((place.ctor child : place LV R).at_y y).transformation.getTranslation = ⟨0, y, 0⟩ ∧
    ((place.ctor child : place LV R).at_z z).transformation.getTranslation = ⟨0, 0, z⟩ := by
  have h : ∀ a b c : R, ((place.ctor child : place LV R).at a b c).transformation
      = Translate3D a b c := by
    intro a b c
    simp [place.at, place.ctor, G4Transform3D.mul_Identity]
  refine ⟨rfl, ?_, ?_, h x y z, rfl, rfl, rfl, ?_, ?_, ?_⟩
  · rw [h]; rfl
  · rw [h]; rfl
  · show ((place.ctor child : place LV R).at x 0 0).transformation.getTranslation = _
    rw [h]; rfl
  · show ((place.ctor child : place LV R).at 0 y 0).transformation.getTranslation = _
    rw [h]; rfl
  · show ((place.ctor child : place LV R).at 0 0 z).transformation.getTranslation = _
    rw [h]; rfl

/-! ### Objects in a store: `clone` -/

/-- A mutator call on the object at `c` leaves every other address as it was. -/
theorem Store.mutate_getElem?_ne (t : Trig R) (s : Store LV R) (c a : Nat)
    (m : Mutator LV R) (h : a ≠ c) : (s.mutate t c m).objs[a]? = s.objs[a]? := by
  unfold Store.mutate
  cases hc : s.objs[c]? with
  | none => rfl
  | some pc =>
    simp only
    rw [List.getElem?_set_ne (Ne.symm h)]

/-- A mutator call never touches the static flag. -/
theorem Store.mutate_global (t : Trig R) (s : Store LV R) (c : Nat) (m : Mutator LV R) :
    (s.mutate t c m).global_check_overlaps_ = s.global_check_overlaps_ := by
  unfold Store.mutate
  cases hc : s.objs[c]? <;> rfl

/-- A sequence of mutator calls on the object at `c` leaves every other address as it was. -/
theorem Store.mutateAll_getElem?_ne (t : Trig R) (c a : Nat) (h : a ≠ c)
    (ms : List (Mutator LV R)) (s : Store LV R) :
    (s.mutateAll t c ms).objs[a]? = s.objs[a]? := by
  induction ms generalizing s with
  | nil => rfl
  | cons m ms ih =>
    show ((s.mutate t c m).mutateAll t c ms).objs[a]? = _
    rw [ih, Store.mutate_getElem?_ne t s c a m h]

/-- A sequence of mutator calls never touches the static flag. -/
theorem Store.mutateAll_global (t : Trig R) (c : Nat) (ms : List (Mutator LV R))
    (s : Store LV R) :
    (s.mutateAll t c ms).global_check_overlaps_ = s.global_check_overlaps_ := by
  induction ms generalizing s with
  | nil => rfl
  | cons m ms ih =>
    show ((s.mutate t c m).mutateAll t c ms).global_check_overlaps_ = _
    rw [ih, Store.mutate_global]

/-- C5: `clone()` is an independent copy. For every builder object `b` (with state `pb`)
the value `b.clone()` has the same child, parent, label, copy number, accumulated
transformation and local overlap flag; the object `c` created by `auto c = b.clone()` is
distinct from `b` and holds that state; and after every finite sequence of mutators
(transform/rotate/at, in, name, copy_no, check_overlaps, and their aliases) applied to `c`,
the object `b` still holds `pb` (so its transformation, parent, label and every other
per-instance field are unchanged), as does every other object than `c`. -/
theorem C5_clone_independent (t : Trig R) (s : Store LV R) (b : Nat) (pb : place LV R)
    (hb : s.objs[b]? = some pb) :
    (pb.clone.child = pb.child ∧ pb.clone.parent = pb.parent ∧ pb.clone.label = pb.label ∧
      pb.clone.copy_number = pb.copy_number ∧
      pb.clone.transformation = pb.transformation ∧
      pb.clone.local_check_overlaps_ = pb.local_check_overlaps_) ∧
    ∃ c s', s.clone b = some (c, s') ∧ c ≠ b ∧ s'.objs[c]? = some pb ∧
      s'.objs[b]? = some pb ∧
      ∀ ms : List (Mutator LV R),
        (s'.mutateAll t c ms).objs[b]? = some pb ∧
        ((s'.mutateAll t c ms).objs[b]?.map place.transformation = some pb.transformation ∧
         (s'.mutateAll t c ms).objs[b]?.map place.parent = some pb.parent ∧
         (s'.mutateAll t c ms).objs[b]?.map place.label = some pb.label) ∧
        ∀ a, a ≠ c → (s'.mutateAll t c ms).objs[a]? = s.objs[a]? := by
  have hlt : b < s.objs.length := by
    by_contra hge
    rw [List.getElem?_eq_none (Nat.le_of_not_lt hge)] at hb
    exact Option.noConfusion hb
  refine ⟨⟨rfl, rfl, rfl, rfl, rfl, rfl⟩, s.objs.length,
    { s with objs := s.objs ++ [pb.clone] }, ?_, Nat.ne_of_gt hlt, ?_, ?_, ?_⟩
  · simp [Store.clone, hb]
  · simp [place.clone]
  · simp only
    rw [List.getElem?_append_left hlt, hb]
  · intro ms
    have hframe : ∀ a, a ≠ s.objs.length →
        ((Store.mk (s.objs ++ [pb.clone]) s.global_check_overlaps_).mutateAll t
          s.objs.length ms).objs[a]? = s.objs[a]? := by
      intro a ha
      rw [Store.mutateAll_getElem?_ne t _ a ha]
      simp only
      rcases Nat.lt_or_ge a s.objs.length with hlt' | hge
      · rw [List.getElem?_append_left hlt']
      · have hgt : s.objs.length < a := Nat.lt_of_le_of_ne hge (Ne.symm ha)
        rw [List.getElem?_eq_none (by simp; omega), List.getElem?_eq_none (by omega)]
    have hbb := hframe b (Nat.ne_of_lt hlt)
    rw [hb] at hbb
    refine ⟨hbb, ?_, hframe⟩
    rw [hbb]
    exact ⟨rfl, rfl, rfl⟩

/-- Witness of C5: a store with one builder, cloned, the clone then moved, rotated and
renamed. -/
theorem C5_clone_independent_witness :
    ∃ c s', (Store.mk [(place.ctor (some 7) : place Nat ℤ)] false).clone 0 = some (c, s') ∧
      c ≠ 0 ∧
      (s'.mutateAll ⟨fun _ => 0, fun _ => 1⟩ c
          [Mutator.at_ 1 2 3, Mutator.rotate_z 0, Mutator.name "copy", Mutator.in_ (some 4),
           Mutator.copy_no 5, Mutator.check_overlaps]).objs[0]?
        = some (place.ctor (some 7)) := by
  obtain ⟨-, c, s', h1, h2, -, -, h3⟩ :=
    C5_clone_independent (⟨fun _ => 0, fun _ => 1⟩ : Trig ℤ)
      (Store.mk [(place.ctor (some 7) : place Nat ℤ)] false) 0 (place.ctor (some 7)) rfl
  exact ⟨c, s', h1, h2, (h3 _).1⟩

/-! ### Chains of mutators: which field each call writes -/

/-- Two builder states with equal fields are equal. -/
theorem place.eq_of_fields {L S : Type} {b b' : place L S} (h1 : b.child = b'.child)
    (h2 : b.parent = b'.parent) (h3 : b.label = b'.label)
    (h4 : b.copy_number = b'.copy_number) (h5 : b.transformation = b'.transformation)
    (h6 : b.local_check_overlaps_ = b'.local_check_overlaps_) : b = b' := by
  cases b; cases b'
  simp only at h1 h2 h3 h4 h5 h6
  subst h1 h2 h3 h4 h5 h6
  rfl

/-- The transformation after a call depends on the earlier state through its
transformation only. -/
theorem Mutator.call_transformation_congr (t : Trig R) (m : Mutator LV R)
    {b b' : place LV R} (h : b.transformation = b'.transformation) :
    (m.call t b).transformation = (m.call t b').transformation := by
  cases m <;>
    simp [Mutator.call, place.trans, place.transform, place.rotate, place.rotate_x,
      place.rotate_y, place.rotate_z, place.rot, place.rot_x, place.rot_y, place.rot_z,
      place.at, place.at_v, place.at_x, place.at_y, place.at_z, place.copy_no, place.in,
      place.name, place.check_overlaps, h]

/-- A call that is not a transform mutator leaves the transformation as it was. -/
theorem Mutator.call_transformation_of_not (t : Trig R) (m : Mutator LV R) (b : place LV R)
    (h : m.isTransform = false) : (m.call t b).transformation = b.transformation := by
  cases m <;> first
    | rfl
    | exact Bool.noConfusion h

/-- The fields other than the transformation after one call. -/
theorem Mutator.call_other_fields (t : Trig R) (m : Mutator LV R) (b : place LV R) :
    (m.call t b).child = b.child ∧
    (m.call t b).parent = (match m.parentArg with | some l => some l | none => b.parent) ∧
    (m.call t b).label = (match m.labelArg with | some l => some l | none => b.label) ∧
    (m.call t b).copy_number
      = (match m.copyArg with | some n => some n | none => b.copy_number) ∧
    (m.call t b).local_check_overlaps_ = (b.local_check_overlaps_ || m.isCheck) := by
  cases m <;> simp [Mutator.call, Mutator.parentArg, Mutator.labelArg, Mutator.copyArg,
    Mutator.isCheck, place.trans, place.transform, place.rotate, place.rotate_x,
    place.rotate_y, place.rotate_z, place.rot, place.rot_x, place.rot_y, place.rot_z,
    place.at, place.at_v, place.at_x, place.at_y, place.at_z, place.copy_no, place.in,
    place.name, place.check_overlaps]

theorem place.chain_cons (t : Trig R) (b : place LV R) (m : Mutator LV R)
    (ms : List (Mutator LV R)) : b.chain t (m :: ms) = (m.call t b).chain t ms := rfl

/-- The transformation after a chain depends on the starting state through its
transformation only. -/
theorem place.chain_transformation_congr (t : Trig R) (ms : List (Mutator LV R)) :
    ∀ {b b' : place LV R}, b.transformation = b'.transformation →
      (b.chain t ms).transformation = (b'.chain t ms).transformation := by
  induction ms with
  | nil => intro b b' h; exact h
  | cons m ms ih =>
    intro b b' h
    rw [place.chain_cons, place.chain_cons]
    exact ih (Mutator.call_transformation_congr t m h)

/-- The transformation after a chain is the one its transform mutators alone produce. -/
theorem place.chain_transformation (t : Trig R) (ms : List (Mutator LV R)) :
    ∀ b : place LV R, (b.chain t ms).transformation
      = (b.chain t (ms.filter Mutator.isTransform)).transformation := by
  induction ms with
  | nil => intro b; rfl
  | cons m ms ih =>
    intro b
    rw [place.chain_cons, ih]
    cases hm : m.isTransform with
    | true => rw [List.filter_cons_of_pos hm, place.chain_cons]
    | false =>
      rw [List.filter_cons_of_neg (by simp [hm])]
      exact place.chain_transformation_congr t _ (Mutator.call_transformation_of_not t m b hm)

/-- The fields other than the transformation after a chain: the child is kept, `parent`,
`label` and `copy_number` hold the last value given to them (or the starting value), and
the local overlap flag is set once `check_overlaps` occurs. -/
theorem place.chain_other_fields (t : Trig R) (ms : List (Mutator LV R)) :
    ∀ b : place LV R,
      (b.chain t ms).child = b.child ∧
      (b.chain t ms).parent
        = (match lastSome (ms.map Mutator.parentArg) with
            | some l => some l | none => b.parent) ∧
      (b.chain t ms).label
        = (match lastSome (ms.map Mutator.labelArg) with
            | some l => some l | none => b.label) ∧
      (b.chain t ms).copy_number
        = (match lastSome (ms.map Mutator.copyArg) with
            | some n => some n | none => b.copy_number) ∧
      (b.chain t ms).local_check_overlaps_
        = (b.local_check_overlaps_ || ms.any Mutator.isCheck) := by
  induction ms with
  | nil => intro b; simp [place.chain, lastSome]
  | cons m ms ih =>
    intro b
    rw [place.chain_cons]
    obtain ⟨h1, h2, h3, h4, h5⟩ := ih (m.call t b)
    obtain ⟨k1, k2, k3, k4, k5⟩ := Mutator.call_other_fields t m b
    refine ⟨h1.trans k1, ?_, ?_, ?_, ?_⟩
    · rw [h2, k2]; simp only [List.map_cons, lastSome]
      cases lastSome (ms.map Mutator.parentArg) <;> cases m.parentArg <;> rfl
    · rw [h3, k3]; simp only [List.map_cons, lastSome]
      cases lastSome (ms.map Mutator.labelArg) <;> cases m.labelArg <;> rfl
    · rw [h4, k4]; simp only [List.map_cons, lastSome]
      cases lastSome (ms.map Mutator.copyArg) <;> cases m.copyArg <;> rfl
    · rw [h5, k5]; simp [List.any_cons, Bool.or_assoc]

/-- C10: field independence of the mutators. For every builder state, `copy_no(n)`,
`in(parent)` (also through its placement and builder overloads), `name(label)` and
`check_overlaps()` each write only their own field (`copy_number`, `parent`, `label`, the
local overlap flag) and leave the accumulated transformation and all other fields
unchanged; every transform mutator (`trans`/`transform`/`rotate`/`rotate_x/y/z`/`rot...`/
`at`/`at_x/y/z`) changes only the accumulated transformation. Consequently two chains
applied to the same state end in the same state whenever they contain the same transform
mutators in the same relative order, give the same last value to `parent`, `label` and
`copy_number`, and agree on whether `check_overlaps` occurs. -/
theorem C10_field_independence (t : Trig R) (b : place LV R) :
    (∀ n : Int, (b.copy_no n).copy_number = some n ∧
      (b.copy_no n).child = b.child ∧ (b.copy_no n).parent = b.parent ∧
      (b.copy_no n).label = b.label ∧ (b.copy_no n).transformation = b.transformation ∧
      (b.copy_no n).local_check_overlaps_ = b.local_check_overlaps_) ∧
    (∀ l : Ptr LV, (b.in l).parent = some l ∧
      (b.in l).child = b.child ∧ (b.in l).label = b.label ∧
      (b.in l).copy_number = b.copy_number ∧ (b.in l).transformation = b.transformation ∧
      (b.in l).local_check_overlaps_ = b.local_check_overlaps_) ∧
    (∀ (GetLogicalVolume : PV → Ptr LV) (pv : PV),
      b.in_pv GetLogicalVolume pv = b.in (GetLogicalVolume pv)) ∧
    (∀ other b' : place LV R, b.in_place other = some b' →
      ∃ l, other.child = some l ∧ b' = b.in l) ∧
    (∀ s : String, (b.name s).label = some s ∧
      (b.name s).child = b.child ∧ (b.name s).parent = b.parent ∧
      (b.name s).copy_number = b.copy_number ∧
      (b.name s).transformation = b.transformation ∧
      (b.name s).local_check_overlaps_ = b.local_check_overlaps_) ∧
    (b.check_overlaps.local_check_overlaps_ = true ∧
      b.check_overlaps.child = b.child ∧ b.check_overlaps.parent = b.parent ∧
      b.check_overlaps.label = b.label ∧ b.check_overlaps.copy_number = b.copy_number ∧
      b.check_overlaps.transformation = b.transformation) ∧
    (∀ m : Mutator LV R, m.isTransform = true →
      (m.call t b).child = b.child ∧ (m.call t b).parent = b.parent ∧
      (m.call t b).label = b.label ∧ (m.call t b).copy_number = b.copy_number ∧
      (m.call t b).local_check_overlaps_ = b.local_check_overlaps_) ∧
    (∀ m : Mutator LV R, m.isTransform = false →
      (m.call t b).transformation = b.transformation) ∧
    (∀ ms ms' : List (Mutator LV R),
      ms.filter Mutator.isTransform = ms'.filter Mutator.isTransform →
      lastSome (ms.map Mutator.parentArg) = lastSome (ms'.map Mutator.parentArg) →
      lastSome (ms.map Mutator.labelArg) = lastSome (ms'.map Mutator.labelArg) →
      lastSome (ms.map Mutator.copyArg) = lastSome (ms'.map Mutator.copyArg) →
      ms.any Mutator.isCheck = ms'.any Mutator.isCheck →
      b.chain t ms = b.chain t ms') := by
  refine ⟨fun n => ⟨rfl, rfl, rfl, rfl, rfl, rfl⟩, fun l => ⟨rfl, rfl, rfl, rfl, rfl, rfl⟩,
    fun _ _ => rfl, ?_, fun s => ⟨rfl, rfl, rfl, rfl, rfl, rfl⟩,
    ⟨rfl, rfl, rfl, rfl, rfl, rfl⟩, ?_, fun m hm => Mutator.call_transformation_of_not t m b hm,
    ?_⟩
  · intro other b' h
    unfold place.in_place place.get_logical at h
    cases hc : other.child with
    | none => rw [hc] at h; exact Option.noConfusion h
    | some l =>
      rw [hc] at h
      exact ⟨l, rfl, (Option.some.inj h).symm⟩
  · intro m hm
    cases m <;> first
      | exact ⟨rfl, rfl, rfl, rfl, rfl⟩
      | exact Bool.noConfusion hm
  · intro ms ms' hT hP hL hC hK
    obtain ⟨h1, h2, h3, h4, h5⟩ := place.chain_other_fields t ms b
    obtain ⟨k1, k2, k3, k4, k5⟩ := place.chain_other_fields t ms' b
    refine place.eq_of_fields (h1.trans k1.symm) ?_ ?_ ?_ ?_ ?_
    · rw [h2, k2, hP]
    · rw [h3, k3, hL]
    · rw [h4, k4, hC]
    · rw [place.chain_transformation t ms, place.chain_transformation t ms', hT]
    · rw [h5, k5, hK]

/-- Witness of C10: the same three transform mutators in the same order, interleaved in two
ways with `name`, `in`, `copy_no` and `check_overlaps`; the chains end in the same state. -/
theorem C10_field_independence_witness :
    (place.ctor (some 7) : place Nat ℤ).chain ⟨fun _ => 0, fun _ => 1⟩
        [Mutator.at_ 1 0 0, Mutator.name "a", Mutator.rotate_z 0, Mutator.in_ (some 3),
         Mutator.name "b", Mutator.copy_no 2, Mutator.at_x 5, Mutator.check_overlaps]
      = (place.ctor (some 7) : place Nat ℤ).chain ⟨fun _ => 0, fun _ => 1⟩
        [Mutator.check_overlaps, Mutator.copy_no 2, Mutator.name "b", Mutator.at_ 1 0 0,
         Mutator.rotate_z 0, Mutator.at_x 5, Mutator.in_ (some 3)] :=
  (@C10_field_independence Nat Unit ℤ _ (⟨fun _ => 0, fun _ => 1⟩ : Trig ℤ)
    (place.ctor (some 7) : place Nat ℤ)).2.2.2.2.2.2.2.2 _ _ rfl rfl rfl rfl rfl

end placeTheorems
end nain4

/-! ## Theorems: the geometry iterator -/

namespace geometry_iterator
open nain4
variable {PV LV : Type}

/-- The loop of `queue_daughters` pushes the daughters `d, d+1, ..., d+n-1` at the back. -/
theorem queue_daughters_loop_q (g : Geometry PV LV) (logical : LV) (n : Nat) :
    ∀ (d : Nat) (it : geometry_iterator PV),
      (queue_daughters_loop g logical n d it).q
        = it.q ++ (List.range' d n).map (g.GetDaughter logical) := by
  induction n with
  | zero => intro d it; simp [queue_daughters_loop]
  | succ n ih =>
    intro d it
    rw [queue_daughters_loop, ih]
    simp [List.range'_succ]

/-- The member `queue_daughters` appends the daughters in daughter-index order. -/
theorem queue_daughters_eq (g : Geometry PV LV) (it : geometry_iterator PV) (logical : LV) :
    queue_daughters g it logical = ⟨it.q ++ daughters g logical⟩ := by
  have h := queue_daughters_loop_q g logical (g.GetNoDaughters logical) 0 it
  unfold queue_daughters daughters
  rw [List.range_eq_range']
  cases hq : queue_daughters_loop g logical (g.GetNoDaughters logical) 0 it with
  | mk q' => rw [hq] at h; simp only at h; rw [h]

theorem ctor_pv_eq (v : PV) : (ctor_pv v : geometry_iterator PV) = ⟨[v]⟩ := rfl

theorem ctor_lv_eq (g : Geometry PV LV) (l : LV) : ctor_lv g l = ⟨daughters g l⟩ := by
  unfold ctor_lv
  rw [queue_daughters_eq]
  rfl

theorem preincrement_nil (g : Geometry PV LV) :
    preincrement g (⟨[]⟩ : geometry_iterator PV) = ⟨[]⟩ := rfl

theorem preincrement_cons (g : Geometry PV LV) (v : PV) (rest : List PV) :
    preincrement g ⟨v :: rest⟩ = ⟨rest ++ children g v⟩ := by
  show queue_daughters g ⟨rest⟩ (g.GetLogicalVolume v) = _
  rw [queue_daughters_eq]
  rfl

section traverse
variable [DecidableEq PV]

theorem traverse_nil (g : Geometry PV LV) (fuel : Nat) :
    traverse g fuel (⟨[]⟩ : geometry_iterator PV) = some [] := by
  cases fuel <;> simp [traverse, ne, ctor]

theorem traverse_zero_cons (g : Geometry PV LV) (v : PV) (rest : List PV) :
    traverse g 0 ⟨v :: rest⟩ = none := by
  simp [traverse, ne, ctor]

theorem traverse_succ_cons (g : Geometry PV LV) (fuel : Nat) (v : PV) (rest : List PV) :
    traverse g (fuel + 1) ⟨v :: rest⟩
      = (traverse g fuel ⟨rest ++ children g v⟩).map (v :: ·) := by
  simp [traverse, ne, ctor, deref, preincrement_cons]

/-- Running through the placements `xs` at the front of the queue produces them and leaves
their children queued behind whatever followed them. -/
theorem traverse_append (g : Geometry PV LV) (n : Nat) (xs : List PV) :
    ∀ zs : List PV, traverse g (xs.length + n) ⟨xs ++ zs⟩
      = (traverse g n ⟨zs ++ xs.flatMap (children g)⟩).map (xs ++ ·) := by
  induction xs with
  | nil => intro zs; simp
  | cons x xs ih =>
    intro zs
    have hlen : (x :: xs).length + n = (xs.length + n) + 1 := by simp; omega
    rw [hlen, List.cons_append, traverse_succ_cons, List.append_assoc, ih]
    simp [Option.map_map, Function.comp_def, List.append_assoc]

/-- More fuel does not change a result already obtained. -/
theorem traverse_mono (g : Geometry PV LV) (n : Nat) :
    ∀ (it : geometry_iterator PV) (out : List PV), traverse g n it = some out →
      ∀ k, n ≤ k → traverse g k it = some out := by
  induction n with
  | zero =>
    intro it out h k _
    rcases it with ⟨_ | ⟨v, rest⟩⟩
    · rw [traverse_nil] at h ⊢; exact h
    · rw [traverse_zero_cons] at h; exact Option.noConfusion h
  | succ n ih =>
    intro it out h k hk
    rcases it with ⟨_ | ⟨v, rest⟩⟩
    · rw [traverse_nil] at h ⊢; exact h
    · obtain ⟨k, rfl⟩ : ∃ k', k = k' + 1 := ⟨k - 1, by omega⟩
      rw [traverse_succ_cons] at h ⊢
      cases hr : traverse g n ⟨rest ++ children g v⟩ with
      | none => rw [hr] at h; exact Option.noConfusion h
      | some out' =>
        rw [hr] at h
        rw [ih _ out' hr k (by omega)]
        exact h

/-- A finished traversal in terms of single advances: the `k`-th advance is made from an
iterator that is not the end and dereferences to the `k`-th element produced, and the end
is reached after exactly as many advances as elements were produced. -/
theorem traverse_advances (g : Geometry PV LV) (n : Nat) :
    ∀ (it : geometry_iterator PV) (out : List PV), traverse g n it = some out →
      advances g out.length it = ctor ∧
      ∀ k, k < out.length →
        advances g k it ≠ ctor ∧ deref (advances g k it) = out[k]? := by
  induction n with
  | zero =>
    intro it out h
    rcases it with ⟨_ | ⟨v, rest⟩⟩
    · rw [traverse_nil] at h
      cases Option.some.inj h
      exact ⟨rfl, fun k hk => absurd hk (Nat.not_lt_zero k)⟩
    · rw [traverse_zero_cons] at h; exact Option.noConfusion h
  | succ n ih =>
    intro it out h
    rcases it with ⟨_ | ⟨v, rest⟩⟩
    · rw [traverse_nil] at h
      cases Option.some.inj h
      exact ⟨rfl, fun k hk => absurd hk (Nat.not_lt_zero k)⟩
    · rw [traverse_succ_cons] at h
      cases hr : traverse g n ⟨rest ++ children g v⟩ with
      | none => rw [hr] at h; exact Option.noConfusion h
      | some out' =>
        rw [hr] at h
        cases Option.some.inj h
        obtain ⟨h1, h2⟩ := ih _ out' hr
        constructor
        · show advances g (out'.length + 1) _ = _
          unfold advances at h1 ⊢
          rw [Function.iterate_succ_apply, preincrement_cons]
          exact h1
        · intro k hk
          cases k with
          | zero =>
            refine ⟨?_, by simp [advances, deref]⟩
            intro hc
            exact List.noConfusion (congrArg geometry_iterator.q hc)
          | succ k =>
            have hk' : k < out'.length := by simpa using hk
            obtain ⟨h3, h4⟩ := h2 k hk'
            unfold advances at h3 h4 ⊢
            rw [Function.iterate_succ_apply, preincrement_cons]
            exact ⟨h3, by simpa using h4⟩

end traverse
end geometry_iterator

namespace nain4
section levels
variable {PV LV : Type}

theorem level_nil (g : Geometry PV LV) (k : Nat) : level g k [] = [] := by
  induction k with
  | zero => rfl
  | succ k ih => simpa [level] using ih

theorem level_append (g : Geometry PV LV) (k : Nat) :
    ∀ xs ys : List PV, level g k (xs ++ ys) = level g k xs ++ level g k ys := by
  induction k with
  | zero => intro xs ys; rfl
  | succ k ih => intro xs ys; simp [level, List.flatMap_append, ih]

/-- The next level is made of the children of the level above, parent by parent. -/
theorem level_succ_eq (g : Geometry PV LV) (k : Nat) :
    ∀ ps : List PV, level g (k + 1) ps = (level g k ps).flatMap (children g) := by
  induction k with
  | zero => intro ps; rfl
  | succ k ih => intro ps; rw [level, ih]; rfl

theorem level_eq_nil_of_le (g : Geometry PV LV) (ps : List PV) {n m : Nat} (h : n ≤ m)
    (hn : level g n ps = []) : level g m ps = [] := by
  induction m with
  | zero =>
    have : n = 0 := by omega
    subst this; exact hn
  | succ m ih =>
    rcases Nat.lt_or_ge n (m + 1) with hlt | hge
    · rw [level_succ_eq, ih (by omega)]; rfl
    · have : n = m + 1 := by omega
      subst this; exact hn

/-- The level-order sequence is the concatenation of the levels. -/
theorem levelOrder_eq_flatMap (g : Geometry PV LV) (n : Nat) :
    ∀ ps : List PV, levelOrder g n ps = (List.range n).flatMap (fun k => level g k ps) := by
  induction n with
  | zero => intro ps; rfl
  | succ n ih =>
    intro ps
    rw [levelOrder, ih, List.range_succ_eq_map, List.flatMap_cons, List.flatMap_map]
    rfl

/-- When each placement of a list has an empty level below it, so has the list. -/
theorem exists_level_nil_of_forall (g : Geometry PV LV) (ps : List PV)
    (h : ∀ p ∈ ps, ∃ n, level g n [p] = []) : ∃ n, level g n ps = [] := by
  induction ps with
  | nil => exact ⟨0, rfl⟩
  | cons p ps ih =>
    obtain ⟨n1, h1⟩ := h p (List.mem_cons_self p ps)
    obtain ⟨n2, h2⟩ := ih (fun q hq => h q (List.mem_cons_of_mem p hq))
    refine ⟨max n1 n2, ?_⟩
    have : p :: ps = [p] ++ ps := rfl
    rw [this, level_append, level_eq_nil_of_le g [p] (Nat.le_max_left n1 n2) h1,
      level_eq_nil_of_le g ps (Nat.le_max_right n1 n2) h2]
    rfl

theorem mem_daughters (g : Geometry PV LV) (l : LV) (p : PV) (h : p ∈ daughters g l) :
    daughterRel g (g.GetLogicalVolume p) l := by
  unfold daughters at h
  obtain ⟨d, hd, rfl⟩ := List.mem_map.mp h
  exact ⟨d, List.mem_range.mp hd, rfl⟩

/-- In a geometry with a well-founded daughter relation, the levels below a logical volume
are empty from some depth on. -/
theorem exists_level_nil_daughters (g : Geometry PV LV) (hwf : WellFounded (daughterRel g))
    (l : LV) : ∃ n, level g n (daughters g l) = [] := by
  induction l using hwf.induction with
  | _ l ih =>
    apply exists_level_nil_of_forall
    intro p hp
    obtain ⟨n, hn⟩ := ih (g.GetLogicalVolume p) (mem_daughters g l p hp)
    exact ⟨n + 1, by simpa [level, children] using hn⟩

/-- In a geometry with a well-founded daughter relation, the levels below any list of
placements are empty from some depth on. -/
theorem exists_level_nil (g : Geometry PV LV) (hwf : WellFounded (daughterRel g))
    (ps : List PV) : ∃ n, level g n ps = [] := by
  apply exists_level_nil_of_forall
  intro p _
  obtain ⟨n, hn⟩ := exists_level_nil_daughters g hwf (g.GetLogicalVolume p)
  exact ⟨n + 1, by simpa [level, children] using hn⟩

/-- The placements the paths of a given length end at are the level of that depth. -/
theorem pathsOfLen_map_last (g : Geometry PV LV) (roots : List PV) (k : Nat) :
    (pathsOfLen g k roots).map Path.last = level g k roots := by
  induction k with
  | zero => simp [pathsOfLen, level, Function.comp_def]
  | succ k ih =>
    rw [level_succ_eq, ← ih, pathsOfLen, List.map_flatMap, List.flatMap_map]
    congr 1
    funext π
    simp [Path.extend, Function.comp_def]

/-- The placements the placement paths end at, in order, are the level-order sequence. -/
theorem placementPaths_map_last (g : Geometry PV LV) (roots : List PV) (n : Nat) :
    (placementPaths g n roots).map Path.last = levelOrder g n roots := by
  rw [levelOrder_eq_flatMap, placementPaths, List.map_flatMap]
  congr 1
  funext k
  exact pathsOfLen_map_last g roots k

/-- The breadth-first queue produces the level-order sequence: once level `n` of the queue
`ps` is empty, the consumer loop with exactly enough fuel returns the first `n` levels. -/
theorem traverse_levelOrder [DecidableEq PV] (g : Geometry PV LV) (n : Nat) :
    ∀ ps : List PV, level g n ps = [] →
      geometry_iterator.traverse g (levelOrder g n ps).length ⟨ps⟩
        = some (levelOrder g n ps) := by
  induction n with
  | zero =>
    intro ps h
    have : ps = [] := h
    subst this
    exact geometry_iterator.traverse_nil g _
  | succ n ih =>
    intro ps h
    have h' : level g n (ps.flatMap (children g)) = [] := h
    have key := geometry_iterator.traverse_append g
      (levelOrder g n (ps.flatMap (children g))).length ps []
    rw [List.append_nil, List.nil_append, ih _ h'] at key
    rw [levelOrder, List.length_append, key]
    rfl

/-- The same, with any larger amount of fuel. -/
theorem traverse_levelOrder_of_le [DecidableEq PV] (g : Geometry PV LV) (n : Nat)
    (ps : List PV) (h : level g n ps = []) (fuel : Nat)
    (hf : (levelOrder g n ps).length ≤ fuel) :
    geometry_iterator.traverse g fuel ⟨ps⟩ = some (levelOrder g n ps) :=
  geometry_iterator.traverse_mono g _ _ _ (traverse_levelOrder g n ps h) fuel hf

end levels
end nain4

namespace nain4
section iteratorClaims
variable {PV LV : Type}

theorem geometry_iterator_eq_iff [DecidableEq PV] (a b : geometry_iterator PV) :
    geometry_iterator.eq a b = true ↔ a = b := by
  cases a; cases b
  simp [geometry_iterator.eq]

theorem geometry_iterator_eq_false_iff [DecidableEq PV] (a b : geometry_iterator PV) :
    geometry_iterator.eq a b = false ↔ a ≠ b := by
  cases a; cases b
  simp [geometry_iterator.eq]

/-- How often a placement ends a path of a list of paths. -/
theorem count_map_last [DecidableEq PV] (p : PV) (l : List (Path PV)) :
    (l.map Path.last).count p = (l.filter (fun π => decide (π.last = p))).length := by
  induction l with
  | nil => rfl
  | cons π l ih =>
    by_cases h : π.last = p
    · simp [List.count_cons, List.filter_cons, h, ih]
    · simp [List.count_cons, List.filter_cons, h, ih]

/-- In a geometry with a well-founded daughter relation the traversal of any queue counts
placement paths. -/
theorem traversalCountsPaths_of_wf [DecidableEq PV] (g : Geometry PV LV)
    (hwf : WellFounded (daughterRel g)) (roots : List PV) :
    TraversalCountsPaths g ⟨roots⟩ roots := by
  obtain ⟨N, hN⟩ := exists_level_nil g hwf roots
  have hrun := traverse_levelOrder g N roots hN
  obtain ⟨hend, hbefore⟩ := geometry_iterator.traverse_advances g _ _ _ hrun
  refine ⟨N, levelOrder g N roots, ?_, ?_, ?_, ?_, ?_, ?_⟩
  · intro k hk
    have h := pathsOfLen_map_last g roots k
    rw [level_eq_nil_of_le g roots hk hN] at h
    exact List.map_eq_nil_iff.mp h
  · exact traverse_levelOrder_of_le g N roots hN
  · exact (geometry_iterator_eq_iff _ _).mpr hend
  · intro k hk
    exact (geometry_iterator_eq_false_iff _ _).mpr (hbefore k hk).1
  · rw [← placementPaths_map_last, List.length_map]
  · intro p
    rw [← placementPaths_map_last, count_map_last]

theorem exampleTree_wf : WellFounded (daughterRel exampleTree) := by
  apply Subrelation.wf (r := InvImage (· < ·) (fun l : Nat => 4 - l)) ?_
    (InvImage.wf _ Nat.lt_wfRel.wf)
  intro l' l ⟨d, hd, h⟩
  simp only [exampleTree] at hd h
  show 4 - l' < 4 - l
  split_ifs at hd h <;> omega

theorem exampleInstanced_wf : WellFounded (daughterRel exampleInstanced) := by
  apply Subrelation.wf (r := InvImage (· < ·) (fun l : Nat => 3 - l)) ?_
    (InvImage.wf _ Nat.lt_wfRel.wf)
  intro l' l ⟨d, hd, h⟩
  simp only [exampleInstanced] at hd h
  show 3 - l' < 3 - l
  subst h
  by_cases h0 : l = 0
  · subst h0
    have h3 : d + 1 ≠ 3 := by simp at hd; omega
    simp [h3]
  · by_cases h1 : l = 1
    · subst h1; simp
    · simp [h0, h1] at hd

/-- C6: breadth-first order from a logical volume. For every geometry with a well-founded
daughter relation and every logical volume `L`, the levels below `L` are empty from some
depth on; and whenever level `N` is empty, the sequence obtained from
`geometry_iterator(L)` by dereferencing and advancing until it equals the
default-constructed end iterator is exactly the level-order sequence: `L`'s daughters in
daughter-index order, then the placements one level down (parent by parent in the order
the parents were produced, each group in daughter-index order), and so on for the `N`
levels. Only placements are produced, never `L` itself. -/
theorem C6_breadth_first_from_logical [DecidableEq PV] (g : Geometry PV LV)
    (hwf : WellFounded (daughterRel g)) (L : LV) :
    (∃ N, level g N (daughters g L) = []) ∧
    (∀ N, level g N (daughters g L) = [] →
      levelOrder g N (daughters g L)
          = (List.range N).flatMap (fun k => level g k (daughters g L)) ∧
      (∀ k, level g (k + 1) (daughters g L)
          = (level g k (daughters g L)).flatMap
              (fun p => (List.range (g.GetNoDaughters (g.GetLogicalVolume p))).map
                (g.GetDaughter (g.GetLogicalVolume p)))) ∧
      level g 0 (daughters g L)
          = (List.range (g.GetNoDaughters L)).map (g.GetDaughter L) ∧
      ∀ fuel, (levelOrder g N (daughters g L)).length ≤ fuel →
        geometry_iterator.traverse g fuel (geometry_iterator.ctor_lv g L)
          = some (levelOrder g N (daughters g L))) := by
  refine ⟨exists_level_nil_daughters g hwf L, ?_⟩
  intro N hN
  refine ⟨levelOrder_eq_flatMap g N _, fun k => level_succ_eq g k _, rfl, ?_⟩
  intro fuel hfuel
  rw [geometry_iterator.ctor_lv_eq]
  exact traverse_levelOrder_of_le g N _ hN fuel hfuel

/-- Witness of C6: `L` with daughters `p1`, `p2`, where `p1`'s volume has the daughter
`p3`, yields exactly `[p1, p2, p3]`. -/
theorem C6_breadth_first_from_logical_witness :
    WellFounded (daughterRel exampleTree) ∧
    daughters exampleTree 0 = [1, 2] ∧ daughters exampleTree 1 = [3] ∧
    daughters exampleTree 2 = [] ∧ daughters exampleTree 3 = [] ∧
    geometry_iterator.traverse exampleTree 3 (geometry_iterator.ctor_lv exampleTree 0)
      = some [1, 2, 3] :=
  ⟨exampleTree_wf, by decide, by decide, by decide, by decide,
    ((C6_breadth_first_from_logical exampleTree exampleTree_wf 0).2 2 (by decide)).2.2.2 3
      (by decide)⟩

/-- C7: iteration from a physical volume. For every physical volume `v`, the first element
produced by `geometry_iterator(v)` is `v`; after exactly one advance the iterator compares
equal to `geometry_iterator(logical volume of v)`; so the sequence is `v` followed by the
sequence from that logical volume, which is the level-order sequence below `v` once a
level below `v` is empty. When `v` has no children the sequence is exactly `[v]` and the
iterator equals the default-constructed end iterator after one advance. -/
theorem C7_from_physical [DecidableEq PV] (g : Geometry PV LV) (v : PV) :
    geometry_iterator.deref (geometry_iterator.ctor_pv v) = some v ∧
    geometry_iterator.eq (geometry_iterator.ctor_pv v) geometry_iterator.ctor = false ∧
    geometry_iterator.eq (geometry_iterator.preincrement g (geometry_iterator.ctor_pv v))
      (geometry_iterator.ctor_lv g (g.GetLogicalVolume v)) = true ∧
    (∀ fuel, geometry_iterator.traverse g (fuel + 1) (geometry_iterator.ctor_pv v)
      = (geometry_iterator.traverse g fuel
          (geometry_iterator.ctor_lv g (g.GetLogicalVolume v))).map (v :: ·)) ∧
    (∀ N, level g N (daughters g (g.GetLogicalVolume v)) = [] →
      ∀ fuel, (levelOrder g N (daughters g (g.GetLogicalVolume v))).length + 1 ≤ fuel →
        geometry_iterator.traverse g fuel (geometry_iterator.ctor_pv v)
          = some (v :: levelOrder g N (daughters g (g.GetLogicalVolume v)))) ∧
    (g.GetNoDaughters (g.GetLogicalVolume v) = 0 →
      geometry_iterator.eq (geometry_iterator.preincrement g (geometry_iterator.ctor_pv v))
        geometry_iterator.ctor = true ∧
      ∀ fuel, geometry_iterator.traverse g (fuel + 1) (geometry_iterator.ctor_pv v)
        = some [v]) := by
  have hstep : geometry_iterator.preincrement g (geometry_iterator.ctor_pv v)
      = geometry_iterator.ctor_lv g (g.GetLogicalVolume v) := by
    rw [geometry_iterator.ctor_pv_eq, geometry_iterator.preincrement_cons,
      geometry_iterator.ctor_lv_eq]
    rfl
  have hrun : ∀ fuel, geometry_iterator.traverse g (fuel + 1) (geometry_iterator.ctor_pv v)
      = (geometry_iterator.traverse g fuel
          (geometry_iterator.ctor_lv g (g.GetLogicalVolume v))).map (v :: ·) := by
    intro fuel
    rw [geometry_iterator.ctor_pv_eq, geometry_iterator.traverse_succ_cons,
      geometry_iterator.ctor_lv_eq]
    rfl
  refine ⟨rfl, ?_, (geometry_iterator_eq_iff _ _).mpr hstep, hrun, ?_, ?_⟩
  · rw [geometry_iterator_eq_false_iff]
    intro h
    exact List.noConfusion (congrArg geometry_iterator.q h)
  · intro N hN fuel hfuel
    obtain ⟨fuel, rfl⟩ : ∃ f, fuel = f + 1 := ⟨fuel - 1, by omega⟩
    rw [hrun, geometry_iterator.ctor_lv_eq,
      traverse_levelOrder_of_le g N _ hN fuel (by omega)]
    rfl
  · intro h0
    have hd : daughters g (g.GetLogicalVolume v) = [] := by
      simp [daughters, h0]
    have hlv : geometry_iterator.ctor_lv g (g.GetLogicalVolume v) = geometry_iterator.ctor := by
      rw [geometry_iterator.ctor_lv_eq, hd]
      rfl
    refine ⟨(geometry_iterator_eq_iff _ _).mpr (hstep.trans hlv), ?_⟩
    intro fuel
    rw [hrun, hlv]
    show (geometry_iterator.traverse g fuel ⟨[]⟩).map (v :: ·) = _
    rw [geometry_iterator.traverse_nil]
    rfl

/-- Witness of C7: the childless placement `p2` of the example tree. -/
theorem C7_from_physical_witness :
    exampleTree.GetNoDaughters (exampleTree.GetLogicalVolume 2) = 0 ∧
    geometry_iterator.eq
      (geometry_iterator.preincrement exampleTree (geometry_iterator.ctor_pv 2))
      geometry_iterator.ctor = true ∧
    geometry_iterator.traverse exampleTree 1 (geometry_iterator.ctor_pv 2) = some [2] :=
  ⟨by decide,
    ((C7_from_physical exampleTree 2).2.2.2.2.2 (by decide)).1,
    ((C7_from_physical exampleTree 2).2.2.2.2.2 (by decide)).2 0⟩

/-- C8: traversal termination. For every geometry with a well-founded daughter relation
(each logical volume has finitely many daughters) and every root, physical or logical,
repeatedly advancing a `geometry_iterator` reaches a state equal to the
default-constructed end iterator after finitely many advances; the number of advances
needed, and of elements produced, is the number of placement paths from the root, and each
placement is produced once per placement path ending at it (no deduplication). -/
theorem C8_traversal_terminates [DecidableEq PV] (g : Geometry PV LV)
    (hwf : WellFounded (daughterRel g)) :
    (∀ v : PV, TraversalCountsPaths g (geometry_iterator.ctor_pv v) [v]) ∧
    (∀ l : LV, TraversalCountsPaths g (geometry_iterator.ctor_lv g l) (daughters g l)) := by
  constructor
  · intro v
    rw [geometry_iterator.ctor_pv_eq]
    exact traversalCountsPaths_of_wf g hwf [v]
  · intro l
    rw [geometry_iterator.ctor_lv_eq]
    exact traversalCountsPaths_of_wf g hwf (daughters g l)

/-- Witness of C8: in the instanced example the placement 3 lies below both placements of
its mother volume and is produced twice. -/
theorem C8_traversal_terminates_witness :
    WellFounded (daughterRel exampleInstanced) ∧
    TraversalCountsPaths exampleInstanced (geometry_iterator.ctor_pv 0) [0] ∧
    geometry_iterator.traverse exampleInstanced 5 (geometry_iterator.ctor_pv 0)
      = some [0, 1, 2, 3, 3] ∧
    placementPaths exampleInstanced 3 [0]
      = [⟨0, []⟩, ⟨1, [0]⟩, ⟨2, [0]⟩, ⟨3, [1, 0]⟩, ⟨3, [2, 0]⟩] :=
  ⟨exampleInstanced_wf, (C8_traversal_terminates exampleInstanced exampleInstanced_wf).1 0,
    by decide, by decide⟩

/-- C9: the advance step. For an iterator whose pending queue is `v :: rest`,
pre-increment leaves the queue `rest ++ [daughter 0, ..., daughter n-1 of v's logical
volume]` (read from the geometry given to that advance), and dereferencing before the
advance returns `v`, the queue being untouched; for an iterator whose queue is empty (the
end sentinel), advancing leaves it unchanged and equal to the end sentinel.
Post-increment returns a copy of the state before the advance and leaves the advanced
state. -/
theorem C9_advance_step [DecidableEq PV] (g : Geometry PV LV) (v : PV) (rest : List PV) :
    geometry_iterator.preincrement g ⟨v :: rest⟩
      = ⟨rest ++ (List.range (g.GetNoDaughters (g.GetLogicalVolume v))).map
          (g.GetDaughter (g.GetLogicalVolume v))⟩ ∧
    geometry_iterator.deref (⟨v :: rest⟩ : geometry_iterator PV) = some v ∧
    geometry_iterator.preincrement g (⟨[]⟩ : geometry_iterator PV) = ⟨[]⟩ ∧
    geometry_iterator.preincrement g geometry_iterator.ctor = geometry_iterator.ctor ∧
    geometry_iterator.eq (geometry_iterator.preincrement g geometry_iterator.ctor)
      geometry_iterator.ctor = true ∧
    (∀ it : geometry_iterator PV,
      geometry_iterator.eq it geometry_iterator.ctor = true →
        geometry_iterator.eq (geometry_iterator.preincrement g it)
          geometry_iterator.ctor = true) ∧
    (∀ it : geometry_iterator PV,
      (geometry_iterator.postincrement g it).1 = it ∧
      (geometry_iterator.postincrement g it).2 = geometry_iterator.preincrement g it) := by
  refine ⟨geometry_iterator.preincrement_cons g v rest, rfl, rfl, rfl,
    (geometry_iterator_eq_iff _ _).mpr rfl, ?_, fun it => ⟨rfl, rfl⟩⟩
  intro it h
  rw [geometry_iterator_eq_iff] at h ⊢
  rw [h]
  rfl

/-- Witness of C9: the end sentinel of the example tree stays the end sentinel. -/
theorem C9_advance_step_witness :
    geometry_iterator.preincrement exampleTree ⟨[1, 2]⟩ = ⟨[2, 3]⟩ ∧
    geometry_iterator.eq
      (geometry_iterator.preincrement exampleTree (geometry_iterator.ctor : geometry_iterator Nat))
      geometry_iterator.ctor = true :=
  ⟨(C9_advance_step exampleTree 1 [2]).1,
    (C9_advance_step exampleTree 1 [2]).2.2.2.2.2.1 geometry_iterator.ctor (by decide)⟩

end iteratorClaims
end nain4
